import Mathlib

/-!
Verification of the SignalScout scan pipeline (heuristic scorer, AI augmenter
helpers, deduplicator, orchestrator, lead upsert) against its natural-language
specification.  The Python sources are shallowly embedded: dictionaries become
structures with `Option` fields (a missing key is `none`), floats become `ℚ`,
exceptions become `Except String`, and external effects (AI requests, database
upserts) become oracle parameters.
-/

namespace SignalScout

instance {ε α : Type} [DecidableEq ε] [DecidableEq α] : DecidableEq (Except ε α) :=
  fun x y =>
    match x, y with
    | Except.ok a, Except.ok b =>
      if h : a = b then isTrue (by rw [h]) else isFalse (fun hc => by cases hc; exact h rfl)
    | Except.error a, Except.error b =>
      if h : a = b then isTrue (by rw [h]) else isFalse (fun hc => by cases hc; exact h rfl)
    | Except.ok _, Except.error _ => isFalse (fun hc => by cases hc)
    | Except.error _, Except.ok _ => isFalse (fun hc => by cases hc)

/-- Helper for a Python `dict[key]` access: raises `KeyError` when missing. -/
def reqKey {α : Type} (o : Option α) (msg : String) : Except String α :=
  match o with
  | some a => Except.ok a
  | none => Except.error msg

/-- Helper reading an optional string with Python default `""`. -/
def orEmpty (o : Option String) : String :=
  match o with
  | some s => s
  | none => ""

/-- Python substring scan helper: does `needle` start a match anywhere in `hay`?
Mirrors the semantics of Python `needle in hay`. -/
def pyInAux (needle : List Char) : List Char → Bool
  | [] => needle.isEmpty
  | c :: rest => needle.isPrefixOf (c :: rest) || pyInAux needle rest

/-- Python `needle in hay` on strings (substring containment). -/
def pyIn (needle hay : String) : Bool :=
  pyInAux needle.toList hay.toList

/-- Python `str.lower()` (ASCII case folding, like `Char.toLower`). -/
def pyLower (s : String) : String :=
  String.mk (s.toList.map Char.toLower)

/-- Banker's rounding of a rational to the nearest integer, as Python `round`
does (round half to even). -/
def roundHalfEven (x : ℚ) : ℤ :=
  if x - (⌊x⌋ : ℚ) < 1/2 then ⌊x⌋
  else if 1/2 < x - (⌊x⌋ : ℚ) then ⌊x⌋ + 1
  else if ⌊x⌋ % 2 = 0 then ⌊x⌋ else ⌊x⌋ + 1

/-- Python `round(x, 1)`: round to one decimal, half to even. -/
def round1 (x : ℚ) : ℚ :=
  ((roundHalfEven (x * 10) : ℚ)) / 10

/-- Score breakdown record stored under `score_breakdown` (scorer.py:49-54). -/
structure Breakdown where
  keyword : ℚ
  pain_point : ℚ
  recency : ℚ
  engagement : ℚ
  deriving DecidableEq

/-- A signal dictionary.  Every key may be missing (`none`).  `created_at` is
modelled by `createdAtAge`: the age in hours that `_recency_score` computes
from the timestamp, `none` when the timestamp is missing or unparsable (the
ISO-8601 parsing itself is Python `datetime` library code). -/
structure Signal where
  id : Option String := none
  source : Option String := none
  title : Option String := none
  content : Option String := none
  url : Option String := none
  author : Option String := none
  createdAtAge : Option ℚ := none
  points : Option ℤ := none
  num_comments : Option ℤ := none
  score : Option ℚ := none
  score_breakdown : Option Breakdown := none
  ai_score : Option ℚ := none
  intent_category : Option String := none
  ai_reasoning : Option String := none
  suggested_response : Option String := none
  deriving DecidableEq

/-- Configured scoring weights (`config["scoring"]["weights"]`). -/
structure Weights where
  keyword_match : Option ℚ := none
  pain_point_match : Option ℚ := none
  recency : Option ℚ := none
  engagement : Option ℚ := none
  deriving DecidableEq

/-- The `icp` section of the configuration. -/
structure Icp where
  keywords : Option (List String) := none
  pain_points : Option (List String) := none
  deriving DecidableEq

/-- The `scoring` section of the configuration. -/
structure ScoringCfg where
  weights : Option Weights := none
  mode : Option String := none
  min_score : Option ℚ := none
  ai_threshold : Option ℚ := none
  max_ai_per_run : Option ℕ := none
  ai_api_key : Option String := none
  deriving DecidableEq

/-- The `output` section of the configuration. -/
structure OutputCfg where
  max_leads : Option ℕ := none
  deriving DecidableEq

/-- Configuration dictionary (recognized keys only). -/
structure Config where
  icp : Option Icp := none
  scoring : Option ScoringCfg := none
  negative_keywords : Option (List String) := none
  output : Option OutputCfg := none
  deriving DecidableEq

/-- Recency step function of `_recency_score` (scorer.py:160-183), taking the
parsed signal age in hours (`none` = missing or unparsable timestamp). -/
def recency_score (age : Option ℚ) : ℚ :=
  match age with
  | none => 5
  | some a =>
    if a < 6 then 10
    else if a < 24 then 8
    else if a < 72 then 6
    else if a < 168 then 4
    else 2

/-- Lowercased `f"{title} {content}"` text a signal is matched against
(scorer.py:19-21). -/
def textOf (s : Signal) : String :=
  pyLower (orEmpty s.title) ++ (" ") ++ pyLower (orEmpty s.content)

/-- Keyword-hit subscore formula shared by keywords (factor 3/10) and pain
points (factor 2/10): `min(10, (hits / max(len*factor, 1)) * 10)`
(scorer.py:27-31). -/
def hitScore (hits : ℕ) (len : ℕ) (factor : ℚ) : ℚ :=
  min 10 (((hits : ℚ) / max ((len : ℚ) * factor) 1) * 10)

/-- Score a single signal that passed the negative filter (scorer.py:27-54).
The keyword / pain-point / negative lists are already lowercased. -/
def scoreOne (keywords painPoints : List String) (w : Weights) (s : Signal) : Signal :=
  let text := textOf s
  let kwScore := hitScore (keywords.countP (fun kw => pyIn kw text)) keywords.length (3/10)
  let ppScore := hitScore (painPoints.countP (fun pp => pyIn pp text)) painPoints.length (2/10)
  let recScore := recency_score s.createdAtAge
  let engagement : ℤ := (s.points.getD 0) + (s.num_comments.getD 0) * 2
  let engScore := min 10 (((engagement : ℚ) / 50) * 10)
  let total :=
    kwScore * (w.keyword_match.getD (4/10)) +
    ppScore * (w.pain_point_match.getD (2/10)) +
    recScore * (w.recency.getD (2/10)) +
    engScore * (w.engagement.getD (2/10))
  { s with
    score := some (round1 (min 10 (max 1 total)))
    score_breakdown := some
      { keyword := round1 kwScore
        pain_point := round1 ppScore
        recency := round1 recScore
        engagement := round1 engScore } }

/-- Stable insertion step for a descending sort by `key`. -/
def insertDescBy {α : Type} (key : α → ℚ) (a : α) : List α → List α
  | [] => [a]
  | y :: ys => if key a ≤ key y then y :: insertDescBy key a ys else a :: y :: ys

/-- Stable descending sort by `key`, the semantics of Python
`list.sort(key=..., reverse=True)` (stable sorts are extensionally unique). -/
def sortDescBy {α : Type} (key : α → ℚ) : List α → List α
  | [] => []
  | a :: rest => insertDescBy key a (sortDescBy key rest)

/-- Sort key of scorer.py:57 (`x["score"]`; all scored signals carry a score). -/
def heurKey (s : Signal) : ℚ := s.score.getD 0

/-- Core of `score_signals_heuristic` (scorer.py:10-59) once the configuration
lookups succeeded: lowercase the lists, drop negative-keyword signals, score
the rest, sort descending by score. -/
def scoreHeuristicCore (keywords painPoints negatives : List String)
    (w : Weights) (signals : List Signal) : List Signal :=
  let kws := keywords.map pyLower
  let pps := painPoints.map pyLower
  let negs := negatives.map pyLower
  let kept := signals.filter (fun s => !(negs.any (fun nk => pyIn nk (textOf s))))
  sortDescBy heurKey (kept.map (scoreOne kws pps w))

/-- Embedding of `score_signals_heuristic` (scorer.py:10-59) including the
configuration accesses that can raise `KeyError`. -/
def score_signals_heuristic (config : Config) (signals : List Signal) :
    Except String (List Signal) := do
  let icp ← reqKey config.icp ("KeyError: icp")
  let keywords ← reqKey icp.keywords ("KeyError: keywords")
  let painPoints := icp.pain_points.getD []
  let negatives := config.negative_keywords.getD []
  let scoring ← reqKey config.scoring ("KeyError: scoring")
  let w ← reqKey scoring.weights ("KeyError: weights")
  pure (scoreHeuristicCore keywords painPoints negatives w signals)

/-- Reads non-brace characters until a closing brace, the continuation of the
regex `[^{}]+` after its first character; fails on an opening brace or end of
input.  Returns the body collected before the closing brace. -/
def bodyCont : List Char → Option (List Char)
  | [] => none
  | c :: rest =>
    if c = '\x7d' then some []
    else if c = '\x7b' then none
    else (bodyCont rest).map (fun b => c :: b)

/-- Attempts the regex `\x7b[^\x7b\x7d]+\x7d` right after an opening brace: at
least one non-brace character, then a closing brace. -/
def takeBody : List Char → Option (List Char)
  | [] => none
  | c :: rest =>
    if c = '\x7d' ∨ c = '\x7b' then none
    else (bodyCont rest).map (fun b => c :: b)

/-- Embedding of `re.search(r'\{[^{}]+\}', text)` (scorer.py:118): the leftmost
substring consisting of an opening brace, one or more non-brace characters and
a closing brace. -/
def scanFlat : List Char → Option (List Char)
  | [] => none
  | c :: rest =>
    if c = '\x7b' then
      match takeBody rest with
      | some body => some ('\x7b' :: (body ++ ['\x7d']))
      | none => scanFlat rest
    else scanFlat rest

/-- Modelled from the spec: scans from an opening brace with a depth counter
until the braces balance; used to state what the spec calls the "first
balanced `\x7b...\x7d` substring". -/
def balGo (acc : List Char) (depth : ℕ) : List Char → Option (List Char)
  | [] => none
  | c :: rest =>
    if c = '\x7b' then balGo (acc ++ [c]) (depth + 1) rest
    else if c = '\x7d' then
      if depth = 1 then some (acc ++ [c]) else balGo (acc ++ [c]) (depth - 1) rest
    else balGo (acc ++ [c]) depth rest

/-- Modelled from the spec: the first balanced brace-delimited substring of a
response (the spec's stated extraction policy, for comparison with the
implemented `scanFlat`). -/
def firstBalanced : List Char → Option (List Char)
  | [] => none
  | c :: rest =>
    if c = '\x7b' then
      match balGo ['\x7b'] 1 rest with
      | some m => some m
      | none => firstBalanced rest
    else firstBalanced rest

/-- The JSON object parsed from an AI response: each expected field may be
absent. -/
structure AiResult where
  score : Option ℚ := none
  category : Option String := none
  reasoning : Option String := none
  suggested_response : Option String := none
  deriving DecidableEq

/-- Field assignment on AI-augmentation success (scorer.py:121-124):
`ai_score` is the parsed `score`, falling back to the signal's heuristic
score when absent (`result.get("score", signal.get("score"))`). -/
def applyAiResult (s : Signal) (r : AiResult) : Signal :=
  { s with
    ai_score := r.score.or s.score
    intent_category := some (r.category.getD ("noise"))
    ai_reasoning := some (r.reasoning.getD (""))
    suggested_response := some (r.suggested_response.getD ("")) }

/-- The AI-augmentation loop of `score_signals_ai` (scorer.py:89-128) with the
external request/extraction/parsing outcome per signal given by the oracle
`ai` (`none` = request failure, no JSON match, or parse failure: the signal is
left unchanged and the counter does not advance). -/
def aiGo (ai : Signal → Option AiResult) (maxAi : ℕ) (threshold : ℚ) :
    ℕ → List Signal → List Signal
  | _, [] => []
  | cnt, s :: rest =>
    if maxAi ≤ cnt then s :: rest
    else if s.score.getD 0 < threshold then s :: aiGo ai maxAi threshold cnt rest
    else if orEmpty s.title = "" ∧ orEmpty s.content = "" then
      s :: aiGo ai maxAi threshold cnt rest
    else
      match ai s with
      | none => s :: aiGo ai maxAi threshold cnt rest
      | some r => applyAiResult s r :: aiGo ai maxAi threshold (cnt + 1) rest

/-- Embedding of `score_signals_ai` (scorer.py:62-131): without an API key the
signals pass through unchanged, otherwise the augmentation loop runs. -/
def score_signals_ai (config : Config) (ai : Signal → Option AiResult)
    (signals : List Signal) : List Signal :=
  let scoring := config.scoring
  let apiKey := (scoring.bind (fun c => c.ai_api_key)).getD ("")
  if apiKey = "" then signals
  else
    aiGo ai ((scoring.bind (fun c => c.max_ai_per_run)).getD 50)
      ((scoring.bind (fun c => c.ai_threshold)).getD 4) 0 signals

/-- Python-truthy sort / classification key of scorer.py:142 and 147:
`x.get("ai_score") or x.get("score", 0)` (a missing or zero `ai_score` falls
back to the heuristic score). -/
def aiOrScore (s : Signal) : ℚ :=
  let a := s.ai_score.getD 0
  if a = 0 then s.score.getD 0 else a

/-- Intent-category assignment for signals still lacking a truthy category
(scorer.py:145-155). -/
def assignIntent (s : Signal) : Signal :=
  if s.intent_category = none ∨ s.intent_category = some ("") then
    { s with intent_category := some (
        if 7 ≤ aiOrScore s then ("high_intent")
        else if 5 ≤ aiOrScore s then ("medium_intent")
        else if 3 ≤ aiOrScore s then ("low_intent")
        else ("noise")) }
  else s

/-- Embedding of the main scoring entry point `score_signals`
(scorer.py:134-157). -/
def score_signals (config : Config) (ai : Signal → Option AiResult)
    (signals : List Signal) : Except String (List Signal) := do
  let scored ← score_signals_heuristic config signals
  let mode := (config.scoring.bind (fun c => c.mode)).getD ("heuristic")
  let scored2 :=
    if mode = "ai" ∨ mode = "hybrid" then
      sortDescBy aiOrScore (score_signals_ai config ai scored)
    else scored
  pure (scored2.map assignIntent)

/-- Title normalization `_normalize` (app/pipeline.py:43-44): lowercase, keep
only lowercase letters, digits and spaces, strip surrounding spaces. -/
def normChar (c : Char) : Bool :=
  ('a' ≤ c && c ≤ 'z') || ('0' ≤ c && c ≤ '9') || c == ' '

/-- Strip leading and trailing spaces (after filtering, the only whitespace
left is the space character, so this is Python `str.strip()`). -/
def trimSpaces (l : List Char) : List Char :=
  ((l.dropWhile (fun c => c == ' ')).reverse.dropWhile (fun c => c == ' ')).reverse

/-- Normalized dedup key of a title. -/
def normalize (text : String) : String :=
  String.mk (trimSpaces ((pyLower text).toList.filter normChar))

/-- Dedup key of a signal: normalized title, missing title read as `""`. -/
def keyOf (s : Signal) : String := normalize (orEmpty s.title)

/-- Loop of the v2 `deduplicate` (app/pipeline.py:26-40).  `seen` is the dict
of first winners per key (newest binding first), `acc` the output list built
so far. -/
def dedupGo : List (String × Signal) → List Signal → List Signal → List Signal
  | _, acc, [] => acc
  | seen, acc, s :: rest =>
    match (if keyOf s = "" then none else seen.lookup (keyOf s)) with
    | some old =>
      if old.score.getD 0 < s.score.getD 0 then
        dedupGo ((keyOf s, s) :: seen) ((acc.filter (fun x => x.id != old.id)) ++ [s]) rest
      else dedupGo seen acc rest
    | none =>
      dedupGo (if keyOf s = "" then seen else (keyOf s, s) :: seen) (acc ++ [s]) rest

/-- Embedding of the v2 `deduplicate` (app/pipeline.py:26-40). -/
def deduplicate (signals : List Signal) : List Signal :=
  dedupGo [] [] signals

/-- The v1 replacement filter `[x for x in deduped if x["id"] != seen[key]["id"]]`
(pipeline.py:32): each element's `id` access can raise `KeyError`. -/
def filterByIdV1 (old : Signal) : List Signal → Except String (List Signal)
  | [] => Except.ok []
  | x :: xs => do
    let xid ← reqKey x.id ("KeyError: id")
    let oldid ← reqKey old.id ("KeyError: id")
    let rest ← filterByIdV1 old xs
    pure (if xid ≠ oldid then x :: rest else rest)

/-- Loop of the v1 `deduplicate` (pipeline.py:23-39); identical to v2 except
that the replacement filter uses unguarded `["id"]` lookups. -/
def dedupV1Go (seen : List (String × Signal)) (acc : List Signal) :
    List Signal → Except String (List Signal)
  | [] => Except.ok acc
  | s :: rest =>
    match (if keyOf s = "" then none else seen.lookup (keyOf s)) with
    | some old =>
      if old.score.getD 0 < s.score.getD 0 then do
        let acc2 ← filterByIdV1 old acc
        dedupV1Go ((keyOf s, s) :: seen) (acc2 ++ [s]) rest
      else dedupV1Go seen acc rest
    | none =>
      dedupV1Go (if keyOf s = "" then seen else (keyOf s, s) :: seen) (acc ++ [s]) rest

/-- Embedding of the v1 `deduplicate` (pipeline.py:23-39). -/
def deduplicateV1 (signals : List Signal) : Except String (List Signal) :=
  dedupV1Go [] [] signals

/-- The minimum-score filter of the orchestrator (app/pipeline.py:90-91):
keeps signals whose `score` (default 0) is at least `min_score`. -/
def filterMin (minScore : ℚ) (scored : List Signal) : List Signal :=
  scored.filter (fun s => minScore ≤ s.score.getD 0)

/-- The persistence loop (app/pipeline.py:99-118): one upsert per lead, a
failing upsert (oracle `false`) is caught and skipped, `leads_stored` counts
the successes. -/
def persistLoop (upsertOk : Signal → Bool) : List Signal → ℕ
  | [] => 0
  | s :: rest => (if upsertOk s then 1 else 0) + persistLoop upsertOk rest

/-- Scan summary returned to the caller by `run_scan`. -/
structure ScanResult where
  total_signals : ℕ
  leads_found : ℕ
  status : String
  error : Option String
  deriving DecidableEq

/-- The final `complete_scan` database call of a run. -/
structure ScanCall where
  total : ℕ
  leads : ℕ
  status : String
  deriving DecidableEq

/-- The body of the `try` block of `run_scan` after fetching
(app/pipeline.py:85-119): score, filter, deduplicate, truncate, persist.
Returns the final lead list and the number of leads stored. -/
def runScanBody (config : Config) (ai : Signal → Option AiResult)
    (upsertOk : Signal → Bool) (fetched : List Signal) :
    Except String (List Signal × ℕ) := do
  let scored ← score_signals config ai fetched
  let scoring ← reqKey config.scoring ("KeyError: scoring")
  let minScore := scoring.min_score.getD 3
  let filtered := filterMin minScore scored
  let deduped := deduplicate filtered
  let maxLeads := (config.output.bind (fun o => o.max_leads)).getD 50
  let final := deduped.take maxLeads
  pure (final, persistLoop upsertOk final)

/-- Embedding of `run_scan` (app/pipeline.py:47-128) after the fetch step:
empty fetch short-circuits to a completed scan with zero counts; otherwise
any exception escaping the body is caught once at the boundary and the scan
is completed as `failed` with zero counts and the error message returned. -/
def run_scan (config : Config) (ai : Signal → Option AiResult)
    (upsertOk : Signal → Bool) (fetched : List Signal) :
    ScanResult × ScanCall :=
  if fetched.isEmpty then
    ({ total_signals := 0, leads_found := 0, status := "completed", error := none },
     { total := 0, leads := 0, status := "completed" })
  else
    match runScanBody config ai upsertOk fetched with
    | Except.ok (_, stored) =>
      ({ total_signals := fetched.length, leads_found := stored,
         status := "completed", error := none },
       { total := fetched.length, leads := stored, status := "completed" })
    | Except.error e =>
      ({ total_signals := 0, leads_found := 0, status := "failed", error := some e },
       { total := 0, leads := 0, status := "failed" })

/-- The lead dictionary passed to `upsert_lead` (app/pipeline.py:102-115):
every value read with `.get`, so every field may be absent. -/
structure LeadFields where
  source : Option String := none
  title : Option String := none
  url : Option String := none
  author : Option String := none
  text : Option String := none
  score : Option ℚ := none
  ai_score : Option ℚ := none
  ai_reasoning : Option String := none
  intent_category : Option String := none
  suggested_response : Option String := none
  engagement_upvotes : Option ℤ := none
  engagement_comments : Option ℤ := none
  deriving DecidableEq

/-- A stored row of the `leads` table (database.py:25-44; the timestamp
columns are not modelled). -/
structure LeadRow where
  source : String
  title : String
  url : String
  author : String
  text : String
  score : Option ℚ
  ai_score : Option ℚ
  ai_reasoning : Option String
  intent_category : Option String
  suggested_response : Option String
  engagement_upvotes : ℤ
  engagement_comments : ℤ
  status : String
  notes : Option String
  deriving DecidableEq

/-- The row inserted for an unseen url (database.py:76-79): `status` is the
literal `'new'`, `notes` is not in the column list so it takes its NULL
default. -/
def newRow (lead : LeadFields) : LeadRow :=
  { source := orEmpty lead.source
    title := orEmpty lead.title
    url := orEmpty lead.url
    author := orEmpty lead.author
    text := orEmpty lead.text
    score := lead.score
    ai_score := lead.ai_score
    ai_reasoning := lead.ai_reasoning
    intent_category := lead.intent_category
    suggested_response := lead.suggested_response
    engagement_upvotes := lead.engagement_upvotes.getD 0
    engagement_comments := lead.engagement_comments.getD 0
    status := "new"
    notes := none }

/-- The `ON CONFLICT(url) DO UPDATE` assignment (database.py:80-87): only the
scoring fields are overwritten. -/
def updateRow (lead : LeadFields) (r : LeadRow) : LeadRow :=
  { r with
    score := lead.score
    ai_score := lead.ai_score
    ai_reasoning := lead.ai_reasoning
    intent_category := lead.intent_category
    suggested_response := lead.suggested_response
    engagement_upvotes := lead.engagement_upvotes.getD 0
    engagement_comments := lead.engagement_comments.getD 0 }

/-- Embedding of `upsert_lead` (database.py:72-105) on the `leads` table
modelled as a row list with unique urls: insert when the url is unseen,
update only the scoring fields of the matching row on conflict. -/
def upsert_lead (table : List LeadRow) (lead : LeadFields) : List LeadRow :=
  if table.any (fun r => r.url == orEmpty lead.url) then
    table.map (fun r => if r.url == orEmpty lead.url then updateRow lead r else r)
  else table ++ [newRow lead]

/-- Modelled from the spec: the "authoritative score" of a signal, `ai_score`
if present else the heuristic `score` (spec §4.3); used to compare the
spec-stated filter policy with the implemented one. -/
def authoritativeScore (s : Signal) : ℚ :=
  match s.ai_score with
  | some v => v
  | none => s.score.getD 0

/-- Concrete configuration used by witnesses: one keyword, default weights. -/
def cfgW : Config :=
  { icp := some { keywords := some [("k")], pain_points := some [] },
    scoring := some { weights := some {} },
    negative_keywords := some [],
    output := some {} }

/-- Concrete signal used by witnesses (heuristic score 5). -/
def sigW : Signal := { title := some ("k") }

/-- Concrete signal with an id, used by witnesses. -/
def sigId : Signal := { id := some ("a"), title := some ("t"), score := some 1 }

/-- The final lead list of a witness run over `cfgW` and `[sigW]`. -/
def finalW : List Signal := [assignIntent (scoreOne [("k")] [] {} sigW)]

/-- Concrete configuration with a negative keyword, used by witnesses. -/
def cfg6 : Config :=
  { icp := some { keywords := some [("k")] },
    scoring := some { weights := some {} },
    negative_keywords := some [("bad")] }

/-- Concrete configuration missing the `icp` section, used by witnesses. -/
def cfgBad : Config := {}

/-- Concrete stored lead row with user workflow state, used by witnesses. -/
def row1 : LeadRow :=
  { source := "hackernews", title := "t", url := "u", author := "a", text := "x",
    score := some 1, ai_score := none, ai_reasoning := none,
    intent_category := none, suggested_response := none,
    engagement_upvotes := 0, engagement_comments := 0,
    status := "contacted", notes := some ("keep") }

/-- Concrete upserted lead fields sharing `row1`'s url, used by witnesses. -/
def lead1 : LeadFields := { url := some ("u"), score := some 9 }

/-! Helper lemmas. -/

theorem roundHalfEven_ge_floor (x : ℚ) : ⌊x⌋ ≤ roundHalfEven x := by
  unfold roundHalfEven
  split_ifs <;> omega

theorem roundHalfEven_le_of_le (x : ℚ) (k : ℤ) (h : x ≤ (k : ℚ)) :
    roundHalfEven x ≤ k := by
  have hfl : ⌊x⌋ ≤ k := by
    have := Int.floor_le_floor h
    rwa [Int.floor_intCast] at this
  unfold roundHalfEven
  have hbranch : ¬ (x - (⌊x⌋ : ℚ) < 1/2) → ⌊x⌋ + 1 ≤ k := by
    intro h1
    rcases lt_or_eq_of_le hfl with hlt | heq
    · omega
    · exfalso
      have hge : (1 : ℚ)/2 ≤ x - (⌊x⌋ : ℚ) := not_lt.mp h1
      rw [heq] at hge
      linarith
  split_ifs with h1 h2 h3
  · exact hfl
  · exact hbranch h1
  · exact hfl
  · exact hbranch h1

theorem roundHalfEven_ge_of_le (m : ℤ) (x : ℚ) (h : (m : ℚ) ≤ x) :
    m ≤ roundHalfEven x :=
  le_trans (Int.le_floor.mpr h) (roundHalfEven_ge_floor x)

theorem round1_le (x : ℚ) (k : ℤ) (h : x ≤ (k : ℚ)) : round1 x ≤ (k : ℚ) := by
  unfold round1
  have h10 : x * 10 ≤ ((10 * k : ℤ) : ℚ) := by push_cast; linarith
  have hr := roundHalfEven_le_of_le (x * 10) (10 * k) h10
  rw [div_le_iff₀ (by norm_num : (0:ℚ) < 10)]
  calc (roundHalfEven (x * 10) : ℚ) ≤ ((10 * k : ℤ) : ℚ) := by exact_mod_cast hr
    _ = (k : ℚ) * 10 := by push_cast; ring

theorem round1_ge (x : ℚ) (m : ℤ) (h : (m : ℚ) ≤ x) : (m : ℚ) ≤ round1 x := by
  unfold round1
  have h10 : ((10 * m : ℤ) : ℚ) ≤ x * 10 := by push_cast; linarith
  have hr := roundHalfEven_ge_of_le (10 * m) (x * 10) h10
  rw [le_div_iff₀ (by norm_num : (0:ℚ) < 10)]
  calc (m : ℚ) * 10 = ((10 * m : ℤ) : ℚ) := by push_cast; ring
    _ ≤ (roundHalfEven (x * 10) : ℚ) := by exact_mod_cast hr

theorem mem_insertDescBy {α : Type} (key : α → ℚ) (a x : α) (l : List α) :
    x ∈ insertDescBy key a l ↔ x = a ∨ x ∈ l := by
  induction l with
  | nil => simp [insertDescBy]
  | cons y ys ih =>
    simp only [insertDescBy]
    split_ifs <;> simp only [List.mem_cons, ih] <;> tauto

theorem mem_sortDescBy {α : Type} (key : α → ℚ) (x : α) (l : List α) :
    x ∈ sortDescBy key l ↔ x ∈ l := by
  induction l with
  | nil => exact Iff.rfl
  | cons y ys ih =>
    rw [show sortDescBy key (y :: ys) = insertDescBy key y (sortDescBy key ys) from rfl,
      mem_insertDescBy, ih, List.mem_cons]

theorem persistLoop_eq_countP (upsertOk : Signal → Bool) (l : List Signal) :
    persistLoop upsertOk l = l.countP upsertOk := by
  induction l with
  | nil => simp [persistLoop]
  | cons s rest ih =>
    simp only [persistLoop, ih, List.countP_cons]
    split_ifs <;> omega

theorem hitScore_nonneg (hits len : ℕ) (factor : ℚ) : 0 ≤ hitScore hits len factor := by
  unfold hitScore
  have hden : (0 : ℚ) < max ((len : ℚ) * factor) 1 :=
    lt_of_lt_of_le one_pos (le_max_right _ _)
  refine le_min (by norm_num) ?_
  have : (0 : ℚ) ≤ (hits : ℚ) / max ((len : ℚ) * factor) 1 :=
    div_nonneg (Nat.cast_nonneg hits) (le_of_lt hden)
  linarith

theorem hitScore_le (hits len : ℕ) (factor : ℚ) : hitScore hits len factor ≤ 10 :=
  min_le_left _ _

theorem recency_score_some (a : ℚ) :
    recency_score (some a) =
      if a < 6 then 10 else if a < 24 then 8 else if a < 72 then 6
      else if a < 168 then 4 else 2 := rfl

theorem recency_score_nonneg (age : Option ℚ) : 0 ≤ recency_score age := by
  rcases age with _ | a
  · norm_num [recency_score]
  · rw [recency_score_some]
    split_ifs <;> norm_num

theorem recency_score_le (age : Option ℚ) : recency_score age ≤ 10 := by
  rcases age with _ | a
  · norm_num [recency_score]
  · rw [recency_score_some]
    split_ifs <;> norm_num

/-! Claim C1: minimum-score filter. -/

/-- C1 (amended): the orchestrator's minimum-score filter retains exactly the
signals whose heuristic `score` field (0 when missing) is at least the
configured minimum; `ai_score` is not consulted. -/
theorem C1_filter_by_heuristic_score (scored : List Signal) (minScore : ℚ) (s : Signal) :
    s ∈ filterMin minScore scored ↔ s ∈ scored ∧ minScore ≤ s.score.getD 0 := by
  simp [filterMin, List.mem_filter]

/-- C1 counterexample: a signal with heuristic score 2 and `ai_score` 9 has
authoritative score 9 ≥ 3, yet the filter with minimum 3 drops it — membership
is not equivalent to the authoritative score meeting the minimum. -/
theorem C1_counterexample :
    ¬ (({ score := some 2, ai_score := some 9 } : Signal) ∈
          filterMin 3 [{ score := some 2, ai_score := some 9 }] ↔
        3 ≤ authoritativeScore { score := some 2, ai_score := some 9 }) := by
  decide

/-! Claim C5: recency step function. -/

/-- C5: the recency subscore is a pure step function of the signal age with
exact boundaries at 6, 24, 72 and 168 hours, and a missing or unparsable
timestamp yields the neutral default 5. -/
theorem C5_recency_step (a : ℚ) :
    recency_score none = 5 ∧
    (a < 6 → recency_score (some a) = 10) ∧
    (6 ≤ a → a < 24 → recency_score (some a) = 8) ∧
    (24 ≤ a → a < 72 → recency_score (some a) = 6) ∧
    (72 ≤ a → a < 168 → recency_score (some a) = 4) ∧
    (168 ≤ a → recency_score (some a) = 2) := by
  refine ⟨rfl, ?_, ?_, ?_, ?_, ?_⟩ <;>
    intro h1 <;>
    try intro h2
  all_goals rw [recency_score_some]
  all_goals split_ifs <;> first | rfl | linarith

/-- C5 witness: evaluated at the boundary age of exactly 6 hours the step
function yields 8. -/
theorem C5_witness : recency_score (some 6) = 8 :=
  (C5_recency_step 6).2.2.1 (by norm_num) (by norm_num)

/-! Claim C3: AI response extraction and score fallback. -/

theorem bodyCont_no_brace (bs post : List Char)
    (h : ∀ c ∈ bs, c ≠ '\x7b' ∧ c ≠ '\x7d') :
    bodyCont (bs ++ '\x7d' :: post) = some bs := by
  induction bs with
  | nil => simp [bodyCont]
  | cons c cs ih =>
    have hc := h c (List.mem_cons_self c cs)
    have ihh := ih (fun d hd => h d (List.mem_cons_of_mem c hd))
    simp [bodyCont, hc.1, hc.2, ihh]

theorem scanFlat_flat (pre body post : List Char) (hpre : '\x7b' ∉ pre)
    (hbody : body ≠ []) (hb : ∀ c ∈ body, c ≠ '\x7b' ∧ c ≠ '\x7d') :
    scanFlat (pre ++ '\x7b' :: (body ++ '\x7d' :: post)) =
      some ('\x7b' :: (body ++ ['\x7d'])) := by
  induction pre with
  | nil =>
    cases body with
    | nil => exact absurd rfl hbody
    | cons c cs =>
      have hc := hb c (List.mem_cons_self c cs)
      have hcont := bodyCont_no_brace cs post (fun d hd => hb d (List.mem_cons_of_mem c hd))
      simp [scanFlat, takeBody, hc.1, hc.2, hcont]
  | cons p ps ih =>
    have hp : p ≠ '\x7b' := fun he => hpre (he ▸ List.mem_cons_self p ps)
    have ihh := ih (fun hmem => hpre (List.mem_cons_of_mem p hmem))
    simp [scanFlat, hp, ihh]

/-- C3 (amended): the extraction locates the leftmost substring made of an
opening brace, one or more non-brace characters, and a closing brace (the
regex of scorer.py:118), not the first balanced brace substring; on success
`ai_score` is the parsed `score`, falling back to the signal's heuristic
score when the parsed object omits it. -/
theorem C3_extraction_and_fallback (s : Signal) (r : AiResult)
    (pre body post : List Char) :
    (r.score = none → (applyAiResult s r).ai_score = s.score) ∧
    (∀ v, r.score = some v → (applyAiResult s r).ai_score = some v) ∧
    ('\x7b' ∉ pre → body ≠ [] → (∀ c ∈ body, c ≠ '\x7b' ∧ c ≠ '\x7d') →
      scanFlat (pre ++ '\x7b' :: (body ++ '\x7d' :: post)) =
        some ('\x7b' :: (body ++ ['\x7d']))) := by
  refine ⟨?_, ?_, ?_⟩
  · intro h
    simp [applyAiResult, h, Option.or]
  · intro v h
    simp [applyAiResult, h, Option.or]
  · intro h1 h2 h3
    exact scanFlat_flat pre body post h1 h2 h3

/-- C3 witness: a concrete response made of one flat JSON object is extracted
whole, and a parsed object without a `score` field leaves the heuristic score
as `ai_score`. -/
theorem C3_witness :
    (applyAiResult { score := some 5 } {}).ai_score = some 5 ∧
    scanFlat (['x'] ++ '\x7b' :: (['a'] ++ '\x7d' :: []))
      = some ('\x7b' :: (['a'] ++ ['\x7d'])) := by
  constructor
  · exact (C3_extraction_and_fallback { score := some 5 } {} [] [] []).1 rfl
  · exact (C3_extraction_and_fallback ({} : Signal) ({} : AiResult) ['x'] ['a'] []).2.2
      (by decide) (by decide) (by decide)

/-- C3 counterexample: on a response whose first JSON object contains nested
braces, the implemented regex extracts the inner brace pair, not the first
balanced brace substring that the claim describes. -/
theorem C3_counterexample :
    scanFlat (("\x7b\x22a\x22: \x7b\x22score\x22: 3\x7d\x7d").toList) =
      some (("\x7b\x22score\x22: 3\x7d").toList) ∧
    firstBalanced (("\x7b\x22a\x22: \x7b\x22score\x22: 3\x7d\x7d").toList) =
      some (("\x7b\x22a\x22: \x7b\x22score\x22: 3\x7d\x7d").toList) ∧
    scanFlat (("\x7b\x22a\x22: \x7b\x22score\x22: 3\x7d\x7d").toList) ≠
      firstBalanced (("\x7b\x22a\x22: \x7b\x22score\x22: 3\x7d\x7d").toList) := by
  refine ⟨by decide, by decide, by decide⟩

/-! Claims C4 and C6: heuristic scorer bounds and negative filter. -/

theorem score_signals_heuristic_ok (config : Config) (signals out : List Signal)
    (hok : score_signals_heuristic config signals = Except.ok out) :
    ∃ icp keywords scoring w,
      config.icp = some icp ∧ icp.keywords = some keywords ∧
      config.scoring = some scoring ∧ scoring.weights = some w ∧
      out = scoreHeuristicCore keywords (icp.pain_points.getD [])
        (config.negative_keywords.getD []) w signals := by
  unfold score_signals_heuristic at hok
  cases hicp : config.icp with
  | none => rw [hicp] at hok; simp [reqKey, Bind.bind, Except.bind] at hok
  | some icp =>
    rw [hicp] at hok
    simp only [reqKey, Bind.bind, Except.bind] at hok
    cases hkw : icp.keywords with
    | none => rw [hkw] at hok; simp [reqKey, Bind.bind, Except.bind] at hok
    | some keywords =>
      rw [hkw] at hok
      simp only [reqKey, Bind.bind, Except.bind] at hok
      cases hsc : config.scoring with
      | none => rw [hsc] at hok; simp [reqKey, Bind.bind, Except.bind] at hok
      | some scoring =>
        rw [hsc] at hok
        simp only [reqKey, Bind.bind, Except.bind] at hok
        cases hw : scoring.weights with
        | none => rw [hw] at hok; simp [reqKey, Bind.bind, Except.bind] at hok
        | some w =>
          rw [hw] at hok
          simp only [reqKey, Bind.bind, Except.bind, pure, Except.pure, Except.ok.injEq] at hok
          exact ⟨icp, keywords, scoring, w, rfl, hkw, rfl, hw, hok.symm⟩

theorem mem_scoreHeuristicCore (keywords painPoints negatives : List String)
    (w : Weights) (signals : List Signal) (t : Signal)
    (ht : t ∈ scoreHeuristicCore keywords painPoints negatives w signals) :
    ∃ s ∈ signals,
      ((negatives.map pyLower).any (fun nk => pyIn nk (textOf s))) = false ∧
      t = scoreOne (keywords.map pyLower) (painPoints.map pyLower) w s := by
  unfold scoreHeuristicCore at ht
  rw [mem_sortDescBy] at ht
  rcases List.mem_map.mp ht with ⟨s, hs, hts⟩
  rcases List.mem_filter.mp hs with ⟨hsig, hneg⟩
  refine ⟨s, hsig, ?_, hts.symm⟩
  simpa using hneg

theorem round1_nonneg (x : ℚ) (h : 0 ≤ x) : 0 ≤ round1 x := by
  exact_mod_cast round1_ge x 0 (by exact_mod_cast h)

theorem round1_le_ten (x : ℚ) (h : x ≤ 10) : round1 x ≤ 10 := by
  exact_mod_cast round1_le x 10 (by exact_mod_cast h)

theorem round1_ge_one (x : ℚ) (h : 1 ≤ x) : 1 ≤ round1 x := by
  exact_mod_cast round1_ge x 1 (by exact_mod_cast h)

theorem scoreOne_score_eq (keywords painPoints : List String) (w : Weights) (s : Signal) :
    ∃ sc bd, (scoreOne keywords painPoints w s).score = some sc ∧
      (scoreOne keywords painPoints w s).score_breakdown = some bd ∧
      1 ≤ sc ∧ sc ≤ 10 ∧
      0 ≤ bd.keyword ∧ bd.keyword ≤ 10 ∧
      0 ≤ bd.pain_point ∧ bd.pain_point ≤ 10 ∧
      0 ≤ bd.recency ∧ bd.recency ≤ 10 ∧
      bd.engagement ≤ 10 ∧
      (0 ≤ (s.points.getD 0) + (s.num_comments.getD 0) * 2 → 0 ≤ bd.engagement) := by
  refine ⟨_, _, rfl, rfl, ?_, ?_, ?_, ?_, ?_, ?_, ?_, ?_, ?_, ?_⟩
  · exact round1_ge_one _ (le_min (by norm_num) (le_max_left _ _))
  · exact round1_le_ten _ (min_le_left _ _)
  · exact round1_nonneg _ (hitScore_nonneg _ _ _)
  · exact round1_le_ten _ (hitScore_le _ _ _)
  · exact round1_nonneg _ (hitScore_nonneg _ _ _)
  · exact round1_le_ten _ (hitScore_le _ _ _)
  · exact round1_nonneg _ (recency_score_nonneg _)
  · exact round1_le_ten _ (recency_score_le _)
  · exact round1_le_ten _ (min_le_left _ _)
  · intro heng
    refine round1_nonneg _ (le_min (by norm_num) ?_)
    have hcast : (0:ℚ) ≤ (((s.points.getD 0) + (s.num_comments.getD 0) * 2 : ℤ) : ℚ) := by
      exact_mod_cast heng
    have hdiv : (0:ℚ) ≤ (((s.points.getD 0) + (s.num_comments.getD 0) * 2 : ℤ) : ℚ) / 50 :=
      div_nonneg hcast (by norm_num)
    exact mul_nonneg hdiv (by norm_num)

/-- C4 (amended): every signal in the heuristic scorer's output has a
composite score in [1,10]; the keyword, pain-point and recency subscores lie
in [0,10]; the engagement subscore is at most 10, and lies in [0,10] whenever
`points + 2*num_comments` is nonnegative (with negative engagement counts it
can drop below 0). -/
theorem C4_subscore_bounds (config : Config) (signals out : List Signal)
    (hok : score_signals_heuristic config signals = Except.ok out)
    (t : Signal) (ht : t ∈ out) :
    ∃ sc bd, t.score = some sc ∧ t.score_breakdown = some bd ∧
      1 ≤ sc ∧ sc ≤ 10 ∧
      0 ≤ bd.keyword ∧ bd.keyword ≤ 10 ∧
      0 ≤ bd.pain_point ∧ bd.pain_point ≤ 10 ∧
      0 ≤ bd.recency ∧ bd.recency ≤ 10 ∧
      bd.engagement ≤ 10 ∧
      (0 ≤ (t.points.getD 0) + (t.num_comments.getD 0) * 2 → 0 ≤ bd.engagement) := by
  obtain ⟨icp, keywords, scoring, w, h1, h2, h3, h4, hout⟩ :=
    score_signals_heuristic_ok config signals out hok
  subst hout
  obtain ⟨s, hmem, hneg, hts⟩ := mem_scoreHeuristicCore _ _ _ _ _ t ht
  subst hts
  exact scoreOne_score_eq _ _ w s

/-- C4 witness: the bounds evaluated for a concrete configuration and
signal. -/
theorem C4_witness :
    ∃ sc bd,
      (scoreOne ([("k")].map pyLower) (([] : List String).map pyLower) {} sigW).score
          = some sc ∧
      (scoreOne ([("k")].map pyLower) (([] : List String).map pyLower) {} sigW).score_breakdown
          = some bd ∧
      1 ≤ sc ∧ sc ≤ 10 ∧
      0 ≤ bd.keyword ∧ bd.keyword ≤ 10 ∧
      0 ≤ bd.pain_point ∧ bd.pain_point ≤ 10 ∧
      0 ≤ bd.recency ∧ bd.recency ≤ 10 ∧
      bd.engagement ≤ 10 ∧
      (0 ≤ ((scoreOne ([("k")].map pyLower) (([] : List String).map pyLower) {} sigW).points.getD 0) +
          ((scoreOne ([("k")].map pyLower) (([] : List String).map pyLower) {} sigW).num_comments.getD 0) * 2 →
        0 ≤ bd.engagement) :=
  C4_subscore_bounds cfgW [sigW] (scoreHeuristicCore [("k")] [] [] {} [sigW]) rfl
    (scoreOne ([("k")].map pyLower) (([] : List String).map pyLower) {} sigW)
    (List.mem_singleton.mpr rfl)

/-- C4 counterexample: with `points = -500` the engagement subscore in the
scorer's output is -100, which is not in [0,10]. -/
theorem C4_counterexample :
    (scoreHeuristicCore [("k")] [] [] {}
        [{ title := some ("k"), points := some (-500) }]).map
      (fun t => t.score_breakdown.map (fun b => b.engagement)) = [some (-100)] ∧
    ¬ (0:ℚ) ≤ -100 :=
  ⟨by with_unfolding_all decide, by norm_num⟩

/-- C6 (amended): no signal in the heuristic scorer's output contains a
configured negative keyword as a case-insensitive substring of the matched
text, which is the lowercased title, a single space, and the lowercased
content (the code joins title and content with a space, not by direct
concatenation). -/
theorem C6_negative_filter (config : Config) (signals out : List Signal)
    (hok : score_signals_heuristic config signals = Except.ok out)
    (t : Signal) (ht : t ∈ out)
    (nk : String) (hnk : nk ∈ config.negative_keywords.getD []) :
    pyIn (pyLower nk) (textOf t) = false := by
  obtain ⟨icp, keywords, scoring, w, h1, h2, h3, h4, hout⟩ :=
    score_signals_heuristic_ok config signals out hok
  subst hout
  obtain ⟨s, hmem, hneg, hts⟩ := mem_scoreHeuristicCore _ _ _ _ _ t ht
  subst hts
  have hmem2 : pyLower nk ∈ (config.negative_keywords.getD []).map pyLower :=
    List.mem_map_of_mem _ hnk
  have hall := List.any_eq_false.mp hneg
  have hfalse := hall (pyLower nk) hmem2
  exact Bool.eq_false_iff.mpr hfalse

/-- C6 witness: a concrete configuration with one negative keyword, evaluated
on a clean signal. -/
theorem C6_witness :
    pyIn (pyLower ("bad"))
      (textOf (scoreOne ([("k")].map pyLower)
        (([] : List String).map pyLower) {} sigW)) = false :=
  C6_negative_filter cfg6 [sigW] (scoreHeuristicCore [("k")] [] [("bad")] {} [sigW]) rfl
    (scoreOne ([("k")].map pyLower) (([] : List String).map pyLower) {} sigW)
    (List.mem_singleton.mpr rfl) ("bad") (List.mem_singleton.mpr rfl)

/-- C6 counterexample: the keyword `bc` is a substring of the direct
concatenation of title `ab` and content `cd`, yet the signal is kept in the
scorer output because the code matches against the space-joined text. -/
theorem C6_counterexample :
    pyIn (pyLower ("bc")) (pyLower ("ab") ++ pyLower ("cd")) = true ∧
    (scoreHeuristicCore [("z")] [] [("bc")] {}
        [{ title := some ("ab"), content := some ("cd") }]).length = 1 :=
  ⟨rfl, rfl⟩

/-! Claims C7 and C8: orchestrator error handling. -/

theorem runScanBody_ok_stored (config : Config) (ai : Signal → Option AiResult)
    (upsertOk : Signal → Bool) (fetched final : List Signal) (stored : ℕ)
    (h : runScanBody config ai upsertOk fetched = Except.ok (final, stored)) :
    stored = persistLoop upsertOk final := by
  unfold runScanBody at h
  cases hs : score_signals config ai fetched with
  | error e => rw [hs] at h; simp [Bind.bind, Except.bind] at h
  | ok scored =>
    rw [hs] at h
    simp only [Bind.bind, Except.bind] at h
    cases hsc : config.scoring with
    | none => rw [hsc] at h; simp [reqKey] at h
    | some sc =>
      rw [hsc] at h
      simp only [reqKey, pure, Except.pure, Except.ok.injEq, Prod.mk.injEq] at h
      obtain ⟨hfin, hsto⟩ := h
      subst hfin
      exact hsto.symm

/-- C7: with a nonempty fetch and a body that completes, per-lead upsert
failures are skipped: the scan completes with status `completed`, and
`leads_found` is the count of successful upserts over the final lead list,
not the number attempted. -/
theorem C7_per_lead_failures (config : Config) (ai : Signal → Option AiResult)
    (upsertOk : Signal → Bool) (fetched final : List Signal) (stored : ℕ)
    (hne : fetched ≠ [])
    (hbody : runScanBody config ai upsertOk fetched = Except.ok (final, stored))
    (_hsome : ∃ l ∈ final, upsertOk l = false) :
    stored = final.countP upsertOk ∧
    run_scan config ai upsertOk fetched =
      ({ total_signals := fetched.length, leads_found := final.countP upsertOk,
         status := "completed", error := none },
       { total := fetched.length, leads := final.countP upsertOk,
         status := "completed" }) := by
  have hcount : stored = final.countP upsertOk :=
    (runScanBody_ok_stored config ai upsertOk fetched final stored hbody).trans
      (persistLoop_eq_countP _ _)
  refine ⟨hcount, ?_⟩
  cases fetched with
  | nil => exact absurd rfl hne
  | cons a l =>
    simp only [run_scan, List.isEmpty_cons, Bool.false_eq_true, if_false, hbody]
    rw [← hcount]

/-- C7 witness: a run over one signal whose single upsert fails completes
with `leads_found = 0`. -/
theorem C7_witness :
    0 = finalW.countP (fun _ => false) ∧
    run_scan cfgW (fun _ => none) (fun _ => false) [sigW] =
      ({ total_signals := [sigW].length, leads_found := finalW.countP (fun _ => false),
         status := "completed", error := none },
       { total := [sigW].length, leads := finalW.countP (fun _ => false),
         status := "completed" }) :=
  C7_per_lead_failures cfgW (fun _ => none) (fun _ => false) [sigW] finalW 0
    (List.cons_ne_nil _ _)
    (by with_unfolding_all decide)
    ⟨assignIntent (scoreOne [("k")] [] {} sigW), List.mem_singleton.mpr rfl, rfl⟩

/-- C8: any exception escaping the scoring / filtering / dedup / persistence
body of a nonempty run is caught once at the orchestrator boundary: the scan
record is completed as `failed` with zero counts and the error message is
returned to the caller instead of propagating. -/
theorem C8_outer_boundary (config : Config) (ai : Signal → Option AiResult)
    (upsertOk : Signal → Bool) (fetched : List Signal) (e : String)
    (hne : fetched ≠ [])
    (herr : runScanBody config ai upsertOk fetched = Except.error e) :
    run_scan config ai upsertOk fetched =
      ({ total_signals := 0, leads_found := 0, status := "failed", error := some e },
       { total := 0, leads := 0, status := "failed" }) := by
  cases fetched with
  | nil => exact absurd rfl hne
  | cons a l =>
    simp only [run_scan, List.isEmpty_cons, Bool.false_eq_true, if_false, herr]

/-- C8 witness: a configuration without an `icp` section makes the scoring
step raise `KeyError: icp`; the run is completed as `failed` with zero
counts and the message returned. -/
theorem C8_witness :
    run_scan cfgBad (fun _ => none) (fun _ => false) [sigW] =
      ({ total_signals := 0, leads_found := 0, status := "failed",
         error := some ("KeyError: icp") },
       { total := 0, leads := 0, status := "failed" }) :=
  C8_outer_boundary cfgBad (fun _ => none) (fun _ => false) [sigW] ("KeyError: icp")
    (List.cons_ne_nil _ _) (by with_unfolding_all decide)

/-! Claim C9: upsert_lead frame conditions. -/

/-- C9: `upsert_lead` is keyed by url: for an unseen url it appends a fresh
row with workflow status `new` and NULL notes; it never changes the url,
status, notes, source, title, author or text of any existing row; and on
conflict the matching row takes exactly the incoming scoring fields. -/
theorem C9_upsert_lead_frame (table : List LeadRow) (lead : LeadFields) :
    (table.any (fun r => r.url == orEmpty lead.url) = false →
      upsert_lead table lead = table ++ [newRow lead] ∧
      (newRow lead).status = "new" ∧ (newRow lead).notes = none) ∧
    (((upsert_lead table lead).take table.length).map
        (fun r => (r.url, r.status, r.notes, r.source, r.title, r.author, r.text)) =
      table.map (fun r => (r.url, r.status, r.notes, r.source, r.title, r.author, r.text))) ∧
    (table.any (fun r => r.url == orEmpty lead.url) = true →
      ∀ r2 ∈ upsert_lead table lead, r2.url = orEmpty lead.url →
        r2.score = lead.score ∧ r2.ai_score = lead.ai_score ∧
        r2.ai_reasoning = lead.ai_reasoning ∧
        r2.intent_category = lead.intent_category ∧
        r2.suggested_response = lead.suggested_response ∧
        r2.engagement_upvotes = lead.engagement_upvotes.getD 0 ∧
        r2.engagement_comments = lead.engagement_comments.getD 0) := by
  refine ⟨?_, ?_, ?_⟩
  · intro h
    refine ⟨?_, rfl, rfl⟩
    simp [upsert_lead, h]
  · by_cases hany : table.any (fun r => r.url == orEmpty lead.url) = true
    · have hup : upsert_lead table lead =
          table.map (fun r => if r.url == orEmpty lead.url then updateRow lead r else r) := by
        simp [upsert_lead, hany]
      rw [hup]
      rw [show table.length = (table.map (fun r =>
          if r.url == orEmpty lead.url then updateRow lead r else r)).length from
        (List.length_map _ _).symm]
      rw [List.take_length, List.map_map]
      refine List.map_congr_left (fun r hr => ?_)
      simp only [Function.comp_apply]
      by_cases hu : (r.url == orEmpty lead.url) = true
      · rw [if_pos hu]
        rfl
      · rw [if_neg hu]
    · have hup : upsert_lead table lead = table ++ [newRow lead] := by
        simp [upsert_lead, hany]
      rw [hup, List.take_left]
  · intro hany r2 hr2 hurl
    rw [show upsert_lead table lead = table.map (fun r =>
        if r.url == orEmpty lead.url then updateRow lead r else r) from by
      simp [upsert_lead, hany]] at hr2
    obtain ⟨r, hr, hr2eq⟩ := List.mem_map.mp hr2
    by_cases hu : r.url == orEmpty lead.url
    · rw [if_pos hu] at hr2eq
      subst hr2eq
      exact ⟨rfl, rfl, rfl, rfl, rfl, rfl, rfl⟩
    · rw [if_neg hu] at hr2eq
      subst hr2eq
      exact absurd (beq_iff_eq.mpr hurl) hu

/-- C9 witness: upserting over an existing row with the same url refreshes
the scoring fields of the updated row. -/
theorem C9_witness :
    (updateRow lead1 row1).score = lead1.score ∧
    (updateRow lead1 row1).ai_score = lead1.ai_score ∧
    (updateRow lead1 row1).ai_reasoning = lead1.ai_reasoning ∧
    (updateRow lead1 row1).intent_category = lead1.intent_category ∧
    (updateRow lead1 row1).suggested_response = lead1.suggested_response ∧
    (updateRow lead1 row1).engagement_upvotes = lead1.engagement_upvotes.getD 0 ∧
    (updateRow lead1 row1).engagement_comments = lead1.engagement_comments.getD 0 :=
  (C9_upsert_lead_frame [row1] lead1).2.2 (by decide)
    (updateRow lead1 row1) (by decide) (by decide)

/-! Claim C10: totality of the two deduplicate variants. -/

theorem lookup_cons_some {α β : Type} [BEq α] (k a : α) (b : β) (l : List (α × β)) (v : β)
    (h : List.lookup k ((a, b) :: l) = some v) :
    ((k == a) = true ∧ v = b) ∨ ((k == a) = false ∧ List.lookup k l = some v) := by
  simp only [List.lookup] at h
  cases hk : k == a <;> rw [hk] at h
  · right
    exact ⟨rfl, h⟩
  · left
    refine ⟨rfl, ?_⟩
    injection h with h2
    exact h2.symm

theorem filterByIdV1_ok (old : Signal) (acc : List Signal)
    (hacc : ∀ x ∈ acc, x.id.isSome = true) (hold : old.id.isSome = true) :
    filterByIdV1 old acc = Except.ok (acc.filter (fun x => x.id != old.id)) := by
  induction acc with
  | nil => rfl
  | cons x xs ih =>
    obtain ⟨xi, hxi⟩ := Option.isSome_iff_exists.mp (hacc x (List.mem_cons_self x xs))
    obtain ⟨oi, hoi⟩ := Option.isSome_iff_exists.mp hold
    have ihh := ih (fun y hy => hacc y (List.mem_cons_of_mem x hy))
    simp only [filterByIdV1, hxi, hoi, reqKey, Bind.bind, Except.bind, ihh, pure,
      Except.pure, List.filter_cons, Except.ok.injEq]
    by_cases hx : xi = oi
    · subst hx
      simp
    · simp [hx, Ne.symm hx, hxi, hoi]

theorem dedupV1Go_agrees (rest : List Signal) :
    ∀ (seen : List (String × Signal)) (acc : List Signal),
    (∀ x ∈ acc, x.id.isSome = true) →
    (∀ k v, seen.lookup k = some v → v.id.isSome = true) →
    (∀ s ∈ rest, s.id.isSome = true) →
    dedupV1Go seen acc rest = Except.ok (dedupGo seen acc rest) := by
  induction rest with
  | nil => intro seen acc hacc hseen hrest; rfl
  | cons s rest ih =>
    intro seen acc hacc hseen hrest
    have hs : s.id.isSome = true := hrest s (List.mem_cons_self s rest)
    have hrest2 : ∀ x ∈ rest, x.id.isSome = true :=
      fun x hx => hrest x (List.mem_cons_of_mem s hx)
    simp only [dedupV1Go, dedupGo]
    cases hm : (if keyOf s = "" then none else seen.lookup (keyOf s)) with
    | none =>
      have hseen2 : ∀ k v,
          ((if keyOf s = "" then seen else (keyOf s, s) :: seen)).lookup k = some v →
          v.id.isSome = true := by
        by_cases hk : keyOf s = ""
        · simpa [hk] using hseen
        · simp only [hk, if_false]
          intro k v hkv
          rcases lookup_cons_some k (keyOf s) s seen v hkv with ⟨hkk, hvv⟩ | ⟨hkk, hlk⟩
          · subst hvv
            exact hs
          · exact hseen k v hlk
      exact ih _ _ (by
        intro x hx
        rcases List.mem_append.mp hx with h | h
        · exact hacc x h
        · rw [List.mem_singleton.mp h]
          exact hs) hseen2 hrest2
    | some old =>
      dsimp only
      have hold : old.id.isSome = true := by
        by_cases hk : keyOf s = ""
        · rw [hk] at hm
          simp at hm
        · rw [if_neg hk] at hm
          exact hseen (keyOf s) old hm
      by_cases hsc : old.score.getD 0 < s.score.getD 0
      · rw [if_pos hsc, if_pos hsc]
        rw [filterByIdV1_ok old acc hacc hold]
        simp only [Bind.bind, Except.bind]
        exact ih _ _ (by
          intro x hx
          rcases List.mem_append.mp hx with h | h
          · exact hacc x (List.mem_of_mem_filter h)
          · rw [List.mem_singleton.mp h]
            exact hs)
          (by
            intro k v hkv
            rcases lookup_cons_some k (keyOf s) s seen v hkv with ⟨hkk, hvv⟩ | ⟨hkk, hlk⟩
            · subst hvv
              exact hs
            · exact hseen k v hlk) hrest2
      · rw [if_neg hsc, if_neg hsc]
        exact ih _ _ hacc hseen hrest2

/-- C10: the v1 `deduplicate` is total given that every signal carries an
`id` — in that case it returns exactly the v2 result — while an input whose
replacement step reaches an already-kept signal without an `id` raises
`KeyError`; the v2 variant is a total function by construction. -/
theorem C10_v1_totality :
    (∀ sigs : List Signal, (∀ s ∈ sigs, s.id.isSome = true) →
      deduplicateV1 sigs = Except.ok (deduplicate sigs)) ∧
    deduplicateV1 [{ title := some ("zz"), score := some 1 },
      { id := some ("i"), title := some ("dup"), score := some 1 },
      { id := some ("j"), title := some ("dup"), score := some 5 }] =
      Except.error ("KeyError: id") := by
  constructor
  · intro sigs hsigs
    exact dedupV1Go_agrees sigs [] [] (by intro x hx; cases hx)
      (by intro k v hkv; cases hkv) hsigs
  · with_unfolding_all decide

/-- C10 witness: on a list whose signals all carry ids the two variants
agree. -/
theorem C10_witness : deduplicateV1 [sigId] = Except.ok (deduplicate [sigId]) :=
  C10_v1_totality.1 [sigId] (by decide)

/-! Claim C2: deduplication. -/

theorem lookup_cons_self {β : Type} (k : String) (v : β) (l : List (String × β)) :
    List.lookup k ((k, v) :: l) = some v := by
  simp [List.lookup]

theorem lookup_cons_ne {β : Type} {k a : String} (v : β) (l : List (String × β))
    (h : k ≠ a) : List.lookup k ((a, v) :: l) = List.lookup k l := by
  simp [List.lookup, beq_eq_false_iff_ne.mpr h]

theorem scrut_some {seen : List (String × Signal)} {s old : Signal}
    (hm : (if keyOf s = "" then none else seen.lookup (keyOf s)) = some old) :
    keyOf s ≠ "" ∧ seen.lookup (keyOf s) = some old := by
  by_cases hk : keyOf s = ""
  · rw [if_pos hk] at hm
    cases hm
  · rw [if_neg hk] at hm
    exact ⟨hk, hm⟩

/-- Invariant for the count part of the dedup proof: per non-empty key the
accumulator holds at most one signal, and every held signal with that key is
the one recorded in `seen`. -/
def KeyInv (seen : List (String × Signal)) (acc : List Signal) : Prop :=
  ∀ k, k ≠ "" → acc.countP (fun x => keyOf x == k) ≤ 1 ∧
    (∀ x ∈ acc, keyOf x = k → seen.lookup k = some x)

theorem dedupGo_countP (rest : List Signal) :
    ∀ (seen : List (String × Signal)) (acc : List Signal), KeyInv seen acc →
    ∀ k, k ≠ "" → (dedupGo seen acc rest).countP (fun x => keyOf x == k) ≤ 1 := by
  induction rest with
  | nil =>
    intro seen acc hinv k hk
    exact (hinv k hk).1
  | cons s rest ih =>
    intro seen acc hinv k hk
    simp only [dedupGo]
    cases hm : (if keyOf s = "" then none else seen.lookup (keyOf s)) with
    | none =>
      dsimp only
      refine ih _ _ (fun k2 hk2 => ?_) k hk
      by_cases hks : keyOf s = ""
      · rw [if_pos hks]
        constructor
        · rw [List.countP_append]
          have hne2 : keyOf s ≠ k2 := by
            rw [hks]
            exact fun h => hk2 h.symm
          have h0 : List.countP (fun x => keyOf x == k2) [s] = 0 := by
            simp [hne2]
          have := (hinv k2 hk2).1
          omega
        · intro x hx hxk
          rcases List.mem_append.mp hx with h | h
          · exact (hinv k2 hk2).2 x h hxk
          · rw [List.mem_singleton.mp h, hks] at hxk
            exact absurd hxk.symm hk2
      · rw [if_neg hks]
        have hlk : seen.lookup (keyOf s) = none := by
          rw [if_neg hks] at hm
          exact hm
        constructor
        · rw [List.countP_append]
          by_cases hkk : k2 = keyOf s
          · have hlk2 : seen.lookup k2 = none := by
              rw [hkk]
              exact hlk
            have hz : acc.countP (fun x => keyOf x == k2) = 0 :=
              List.countP_eq_zero.mpr (by
                intro x hx hpx
                have hxkey : keyOf x = k2 := by simpa using hpx
                have hlook := (hinv k2 hk2).2 x hx hxkey
                rw [hlk2] at hlook
                cases hlook)
            have hone : List.countP (fun x => keyOf x == k2) [s] ≤ 1 :=
              le_trans (List.countP_le_length _) (by simp)
            omega
          · have hne2 : keyOf s ≠ k2 := fun h => hkk h.symm
            have h0 : List.countP (fun x => keyOf x == k2) [s] = 0 := by
              simp [hne2]
            have := (hinv k2 hk2).1
            omega
        · intro x hx hxk
          rcases List.mem_append.mp hx with h | h
          · have hlook := (hinv k2 hk2).2 x h hxk
            by_cases hkk : k2 = keyOf s
            · rw [hkk, hlk] at hlook
              cases hlook
            · rw [lookup_cons_ne _ _ hkk]
              exact hlook
          · rw [List.mem_singleton.mp h] at hxk ⊢
            rw [← hxk]
            exact lookup_cons_self _ _ _
    | some old =>
      dsimp only
      obtain ⟨hks, hlk⟩ := scrut_some hm
      by_cases hsc : old.score.getD 0 < s.score.getD 0
      · rw [if_pos hsc]
        refine ih _ _ (fun k2 hk2 => ?_) k hk
        constructor
        · rw [List.countP_append]
          by_cases hkk : k2 = keyOf s
          · have hlk2 : seen.lookup k2 = some old := by
              rw [hkk]
              exact hlk
            have hz : (acc.filter (fun x => x.id != old.id)).countP
                (fun x => keyOf x == k2) = 0 :=
              List.countP_eq_zero.mpr (by
                intro x hx hpx
                have hxkey : keyOf x = k2 := by simpa using hpx
                have hlook := (hinv k2 hk2).2 x (List.mem_of_mem_filter hx) hxkey
                rw [hlk2] at hlook
                have hxold : x = old := by
                  injection hlook with h2
                  exact h2.symm
                have hkept := List.of_mem_filter hx
                rw [hxold] at hkept
                simp at hkept)
            have hone : List.countP (fun x => keyOf x == k2) [s] ≤ 1 :=
              le_trans (List.countP_le_length _) (by simp)
            omega
          · have h1 : (acc.filter (fun x => x.id != old.id)).countP
                (fun x => keyOf x == k2) ≤ 1 :=
              le_trans (List.Sublist.countP_le _ (List.filter_sublist _)) (hinv k2 hk2).1
            have hne2 : keyOf s ≠ k2 := fun h => hkk h.symm
            have h0 : List.countP (fun x => keyOf x == k2) [s] = 0 := by
              simp [hne2]
            omega
        · intro x hx hxk
          rcases List.mem_append.mp hx with h | h
          · have hlook := (hinv k2 hk2).2 x (List.mem_of_mem_filter h) hxk
            by_cases hkk : k2 = keyOf s
            · rw [hkk, hlk] at hlook
              have hxold : x = old := by
                injection hlook with h2
                exact h2.symm
              have hkept := List.of_mem_filter h
              rw [hxold] at hkept
              simp at hkept
            · rw [lookup_cons_ne _ _ hkk]
              exact hlook
          · rw [List.mem_singleton.mp h] at hxk ⊢
            rw [← hxk]
            exact lookup_cons_self _ _ _
      · rw [if_neg hsc]
        exact ih _ _ hinv k hk

theorem dedupGo_keeps_empty (rest : List Signal) :
    ∀ (seen : List (String × Signal)) (acc D : List Signal),
    (∀ x ∈ acc, x ∈ D) →
    (∀ k v, seen.lookup k = some v → v ∈ D ∧ keyOf v = k ∧ k ≠ "") →
    ((D ++ rest).map Signal.id).Nodup →
    (∀ x ∈ acc, keyOf x = "" → x ∈ dedupGo seen acc rest) ∧
    (∀ x ∈ rest, keyOf x = "" → x ∈ dedupGo seen acc rest) := by
  induction rest with
  | nil =>
    intro seen acc D haccD hseenD hnodup
    exact ⟨fun x hx _ => hx, fun x hx => absurd hx (List.not_mem_nil x)⟩
  | cons s rest ih =>
    intro seen acc D haccD hseenD hnodup
    have hnodup2 : (((D ++ [s]) ++ rest).map Signal.id).Nodup := by
      rw [List.append_assoc]
      exact hnodup
    simp only [dedupGo]
    cases hm : (if keyOf s = "" then none else seen.lookup (keyOf s)) with
    | none =>
      dsimp only
      by_cases hks : keyOf s = ""
      · rw [if_pos hks]
        obtain ⟨ih1, ih2⟩ := ih seen (acc ++ [s]) (D ++ [s])
          (by
            intro x hx
            rcases List.mem_append.mp hx with h | h
            · exact List.mem_append_left _ (haccD x h)
            · exact List.mem_append_right _ h)
          (by
            intro k v hkv
            obtain ⟨hvD, hvk, hkne⟩ := hseenD k v hkv
            exact ⟨List.mem_append_left _ hvD, hvk, hkne⟩)
          hnodup2
        refine ⟨?_, ?_⟩
        · intro x hx hxe
          exact ih1 x (List.mem_append_left _ hx) hxe
        · intro x hx hxe
          rcases List.mem_cons.mp hx with h | h
          · subst h
            exact ih1 x (List.mem_append_right _ (List.mem_singleton.mpr rfl)) hxe
          · exact ih2 x h hxe
      · rw [if_neg hks]
        obtain ⟨ih1, ih2⟩ := ih ((keyOf s, s) :: seen) (acc ++ [s]) (D ++ [s])
          (by
            intro x hx
            rcases List.mem_append.mp hx with h | h
            · exact List.mem_append_left _ (haccD x h)
            · exact List.mem_append_right _ h)
          (by
            intro k v hkv
            rcases lookup_cons_some k (keyOf s) s seen v hkv with ⟨hkk, hvv⟩ | ⟨hkk, hlk⟩
            · have hkeq : k = keyOf s := by simpa using hkk
              rw [hvv, hkeq]
              exact ⟨List.mem_append_right _ (List.mem_singleton.mpr rfl), rfl, hks⟩
            · obtain ⟨hvD, hvk, hkne⟩ := hseenD k v hlk
              exact ⟨List.mem_append_left _ hvD, hvk, hkne⟩)
          hnodup2
        refine ⟨?_, ?_⟩
        · intro x hx hxe
          exact ih1 x (List.mem_append_left _ hx) hxe
        · intro x hx hxe
          rcases List.mem_cons.mp hx with h | h
          · subst h
            exact absurd hxe hks
          · exact ih2 x h hxe
    | some old =>
      dsimp only
      obtain ⟨hks, hlk⟩ := scrut_some hm
      obtain ⟨holdD, holdk, _⟩ := hseenD (keyOf s) old hlk
      by_cases hsc : old.score.getD 0 < s.score.getD 0
      · rw [if_pos hsc]
        obtain ⟨ih1, ih2⟩ := ih ((keyOf s, s) :: seen)
          (acc.filter (fun x => x.id != old.id) ++ [s]) (D ++ [s])
          (by
            intro x hx
            rcases List.mem_append.mp hx with h | h
            · exact List.mem_append_left _ (haccD x (List.mem_of_mem_filter h))
            · exact List.mem_append_right _ h)
          (by
            intro k v hkv
            rcases lookup_cons_some k (keyOf s) s seen v hkv with ⟨hkk, hvv⟩ | ⟨hkk, hlk2⟩
            · have hkeq : k = keyOf s := by simpa using hkk
              rw [hvv, hkeq]
              exact ⟨List.mem_append_right _ (List.mem_singleton.mpr rfl), rfl, hks⟩
            · obtain ⟨hvD, hvk, hkne⟩ := hseenD k v hlk2
              exact ⟨List.mem_append_left _ hvD, hvk, hkne⟩)
          hnodup2
        refine ⟨?_, ?_⟩
        · intro x hx hxe
          have hxne : x ≠ old := by
            intro he
            rw [he, holdk] at hxe
            exact hks hxe
          have hidne : x.id ≠ old.id := by
            intro hid
            refine hxne (List.inj_on_of_nodup_map hnodup ?_ ?_ hid)
            · exact List.mem_append_left _ (haccD x hx)
            · exact List.mem_append_left _ holdD
          have hxfil : x ∈ acc.filter (fun y => y.id != old.id) :=
            List.mem_filter.mpr ⟨hx, bne_iff_ne.mpr hidne⟩
          exact ih1 x (List.mem_append_left _ hxfil) hxe
        · intro x hx hxe
          rcases List.mem_cons.mp hx with h | h
          · subst h
            exact absurd hxe hks
          · exact ih2 x h hxe
      · rw [if_neg hsc]
        obtain ⟨ih1, ih2⟩ := ih seen acc (D ++ [s])
          (fun x hx => List.mem_append_left _ (haccD x hx))
          (by
            intro k v hkv
            obtain ⟨hvD, hvk, hkne⟩ := hseenD k v hkv
            exact ⟨List.mem_append_left _ hvD, hvk, hkne⟩)
          hnodup2
        refine ⟨?_, ?_⟩
        · intro x hx hxe
          exact ih1 x hx hxe
        · intro x hx hxe
          rcases List.mem_cons.mp hx with h | h
          · subst h
            exact absurd hxe hks
          · exact ih2 x h hxe

theorem dedup_pair (s1 s2 : Signal) (hk : keyOf s2 = keyOf s1) (hne : keyOf s1 ≠ "") :
    deduplicate [s1, s2] = if s1.score.getD 0 < s2.score.getD 0 then [s2] else [s1] := by
  have h1 : (if keyOf s1 = "" then (none : Option Signal) else List.lookup (keyOf s1) []) =
      none := by
    simp [hne]
  have h2 : (if keyOf s2 = "" then (none : Option Signal)
      else List.lookup (keyOf s2) [(keyOf s1, s1)]) = some s1 := by
    simp [hk, hne, List.lookup]
  simp only [deduplicate, dedupGo, h1, h2]
  by_cases hsc : s1.score.getD 0 < s2.score.getD 0
  · simp [hsc, hne, hk, List.filter]
  · simp [hsc, hne, hk]

theorem dedupGo_id (rest : List Signal) :
    ∀ (seen : List (String × Signal)) (acc : List Signal),
    (∀ x ∈ rest, keyOf x = "" ∨ seen.lookup (keyOf x) = none) →
    List.Pairwise (fun a b => keyOf a = "" ∨ keyOf a ≠ keyOf b) rest →
    dedupGo seen acc rest = acc ++ rest := by
  induction rest with
  | nil =>
    intro seen acc h hp
    simp [dedupGo]
  | cons s rest ih =>
    intro seen acc h hp
    simp only [dedupGo]
    have hs := h s (List.mem_cons_self s rest)
    obtain ⟨hhead, htail⟩ := List.pairwise_cons.mp hp
    cases hsk : (if keyOf s = "" then none else seen.lookup (keyOf s)) with
    | some old =>
      exfalso
      obtain ⟨hks, hlk⟩ := scrut_some hsk
      rcases hs with h1 | h1
      · exact hks h1
      · rw [h1] at hlk
        cases hlk
    | none =>
      dsimp only
      have harg : ∀ x ∈ rest, keyOf x = "" ∨
          (if keyOf s = "" then seen else (keyOf s, s) :: seen).lookup (keyOf x) = none := by
        intro x hx
        rcases h x (List.mem_cons_of_mem _ hx) with h1 | h1
        · exact Or.inl h1
        · right
          by_cases hks : keyOf s = ""
          · rw [if_pos hks]
            exact h1
          · rw [if_neg hks]
            rcases hhead x hx with h2 | h2
            · exact absurd h2 hks
            · rw [lookup_cons_ne _ _ (fun he => h2 he.symm)]
              exact h1
      rw [ih _ _ harg htail, List.append_assoc]
      rfl

/-- C2 (amended): deduplication keeps at most one signal per non-empty
normalized-title key; provided the signals' `id` values are pairwise
distinct, signals with an empty normalized title are always kept (a
replacement removes every kept signal sharing the replaced signal's id, so
with duplicate ids an unrelated kept signal can be evicted too); for two
signals with identical non-empty normalized titles the strictly
higher-scoring one wins regardless of arrival order (ties keep the first);
and when no two signals collide on a non-empty key the output is exactly the
input, in first-seen order. -/
theorem C2_deduplicate_spec :
    (∀ sigs : List Signal, ∀ k, k ≠ "" →
      (deduplicate sigs).countP (fun x => keyOf x == k) ≤ 1) ∧
    (∀ sigs : List Signal, (sigs.map Signal.id).Nodup →
      ∀ x ∈ sigs, keyOf x = "" → x ∈ deduplicate sigs) ∧
    (∀ s1 s2 : Signal, keyOf s2 = keyOf s1 → keyOf s1 ≠ "" →
      deduplicate [s1, s2] =
        if s1.score.getD 0 < s2.score.getD 0 then [s2] else [s1]) ∧
    (∀ sigs : List Signal,
      List.Pairwise (fun a b => keyOf a = "" ∨ keyOf a ≠ keyOf b) sigs →
      deduplicate sigs = sigs) := by
  refine ⟨?_, ?_, ?_, ?_⟩
  · intro sigs k hk
    refine dedupGo_countP sigs [] [] (fun k2 hk2 => ⟨by simp, ?_⟩) k hk
    intro x hx
    exact absurd hx (List.not_mem_nil x)
  · intro sigs hnd x hx hxe
    refine (dedupGo_keeps_empty sigs [] [] []
      (fun y hy => absurd hy (List.not_mem_nil y)) ?_ (by simpa using hnd)).2 x hx hxe
    intro k v hkv
    simp at hkv
  · intro s1 s2 hk hne
    exact dedup_pair s1 s2 hk hne
  · intro sigs hp
    have hid := dedupGo_id sigs [] [] ?_ hp
    · simpa using hid
    · intro x hx
      by_cases hk : keyOf x = ""
      · exact Or.inl hk
      · exact Or.inr (List.lookup_nil)

/-- C2 witness: an empty-normalized-title signal is kept, and of two
concrete signals sharing the key `dup` the score-5 one beats the score-1
one that arrived first. -/
theorem C2_witness :
    (({ title := some ("!!!"), id := some ("e") } : Signal) ∈
      deduplicate [{ title := some ("!!!"), id := some ("e") }]) ∧
    deduplicate [{ id := some ("i"), title := some ("dup"), score := some 1 },
        { id := some ("j"), title := some ("dup"), score := some 5 }] =
      (if ({ id := some ("i"), title := some ("dup"), score := some 1 } : Signal).score.getD 0 <
          ({ id := some ("j"), title := some ("dup"), score := some 5 } : Signal).score.getD 0
        then [{ id := some ("j"), title := some ("dup"), score := some 5 }]
        else [{ id := some ("i"), title := some ("dup"), score := some 1 }]) :=
  ⟨C2_deduplicate_spec.2.1 _ (by decide) _ (by decide) (by decide),
   C2_deduplicate_spec.2.2.1 _ _ (by decide) (by decide)⟩

/-- C2 counterexample: with duplicate `id` values, a replacement also evicts
an already-kept signal whose normalized title is empty — the claim's
"always keeps signals whose normalized title is empty" fails as stated for
arbitrary inputs. -/
theorem C2_counterexample :
    normalize (orEmpty (({ id := some ("x"), title := some ("!!!"), score := some 1 } :
      Signal).title)) = "" ∧
    deduplicate [{ id := some ("x"), title := some ("!!!"), score := some 1 },
        { id := some ("x"), title := some ("dup"), score := some 1 },
        { id := some ("y"), title := some ("dup"), score := some 5 }] =
      [{ id := some ("y"), title := some ("dup"), score := some 5 }] ∧
    (({ id := some ("x"), title := some ("!!!"), score := some 1 } : Signal) ∉
      deduplicate [{ id := some ("x"), title := some ("!!!"), score := some 1 },
        { id := some ("x"), title := some ("dup"), score := some 1 },
        { id := some ("y"), title := some ("dup"), score := some 5 }]) := by
  refine ⟨by decide, by decide, by decide⟩

end SignalScout